import Mathlib

/-!
Verification of the persistent state layer of the multichain CosmWasm NFT
registry (`contracts/codedestate/src/state.rs`).

The embedding models:
- the `Owner` record and its `validate_sender` authorization decision;
- the scalar stores (`token_count`, `fee`) and the per-denomination
  balance ledger of `Cw721Contract`, with `u64` / `Uint128` machine
  bounds made explicit: `Uint128` arithmetic in `cosmwasm_std` and `u64`
  arithmetic under the standard CosmWasm `overflow-checks` build abort
  the transaction on overflow/underflow rather than returning an error
  value, which the model renders as the `panic` outcome;
- the indexed token table (`tokens : IndexedMap<_, TokenInfo<T>,
  TokenIndexes>` with its `MultiIndex` keyed by `token_owner_idx`).
-/

namespace Codedestate

/-- Fixed process-wide bridge address (`BRIDGE_WALLET` in `state.rs`). -/
def BRIDGE_WALLET : String := "nibiru_bridge_address"

/-- `Owner { chain_type, address }` from `state.rs`. -/
structure Owner where
  chain_type : String
  address : String
deriving DecidableEq, Repr

/-- `Owner::validate_sender`: native-chain owners must match the sender
textually; any foreign-chain owner is represented by the bridge wallet. -/
def Owner.validate_sender (o : Owner) (sender : String) : Bool :=
  match o.chain_type with
  | "nibiru" => o.address == sender
  | _ => sender == BRIDGE_WALLET

/-- `Approval { spender, expires }` from `state.rs`; the `Expiration` type
lives in the (absent) `cw_utils` crate, so it stays a type parameter. -/
structure Approval (Exp : Type) where
  spender : String
  expires : Exp

/-- `TokenInfo<T>` from `state.rs`.  The rental/bid/sale substructures are
declared in the absent `cw721::query` module and are persisted as-is, so
they are opaque type parameters here, as is the extension payload `T`. -/
structure TokenInfo (T Exp L S R B Se : Type) where
  owner : Owner
  approvals : List (Approval Exp)
  longterm_rental : L
  shortterm_rental : S
  rentals : List R
  bids : List B
  sell : Se
  token_uri : Option String
  extension : T

/-- `token_owner_idx` from `state.rs`: the index key extracted from a
record is its owner's address (the primary key argument is unused). -/
def token_owner_idx {T Exp L S R B Se : Type} (_pk : String)
    (d : TokenInfo T Exp L S R B Se) : String :=
  d.owner.address

/-- Outcome of a storage operation.  `ok` is `StdResult::Ok`; `err` is an
explicit `StdResult::Err` value returned to the caller; `panic` is a Rust
panic (in a CosmWasm contract: a VM abort of the whole transaction), which
is not an error *result*. -/
inductive CwResult (α : Type) where
  | ok : α → CwResult α
  | err : String → CwResult α
  | panic : CwResult α

/-- `u64` modulus. -/
def U64_MOD : Nat := 2 ^ 64

/-- `Uint128` modulus. -/
def U128_MOD : Nat := 2 ^ 128

/-- The scalar and map stores of `Cw721Contract`: `token_count : Item<u64>`,
`fee : Item<u64>`, `balances : Map<&str, Uint128>`.  `none` means the key
was never written (`may_load` returns `None`). -/
structure ContractState where
  tokenCountItem : Option Nat
  feeItem : Option Nat
  balances : String → Option Nat

/-- `Cw721Contract::token_count`: `may_load(..)?.unwrap_or_default()`. -/
def token_count (s : ContractState) : Nat :=
  s.tokenCountItem.getD 0

/-- `Cw721Contract::get_fee`: `may_load(..)?.unwrap_or_default()`. -/
def get_fee (s : ContractState) : Nat :=
  s.feeItem.getD 0

/-- `Cw721Contract::set_fee`: plain overwrite, returns the stored value. -/
def set_fee (s : ContractState) (fee : Nat) : ContractState × Nat :=
  ({ s with feeItem := some fee }, fee)

/-- `Cw721Contract::get_balance`: `may_load(..)?.unwrap_or_default()`. -/
def get_balance (s : ContractState) (denom : String) : Nat :=
  (s.balances denom).getD 0

/-- `Cw721Contract::increase_balance`: `balance += amount` on `Uint128`
(`cosmwasm_std` addition panics on overflow), then `save`, returning the
new balance. -/
def increase_balance (s : ContractState) (denom : String) (amount : Nat) :
    CwResult (ContractState × Nat) :=
  let balance := get_balance s denom
  if balance + amount < U128_MOD then
    .ok ({ s with
            balances := fun k =>
              if k = denom then some (balance + amount) else s.balances k },
          balance + amount)
  else
    .panic

/-- `Cw721Contract::decrease_balance`: `balance -= amount` on `Uint128`
(`cosmwasm_std` subtraction panics on underflow; the checked variant that
would return an explicit error is commented out in the source), then
`save`, returning the new balance. -/
def decrease_balance (s : ContractState) (denom : String) (amount : Nat) :
    CwResult (ContractState × Nat) :=
  let balance := get_balance s denom
  if amount ≤ balance then
    .ok ({ s with
            balances := fun k =>
              if k = denom then some (balance - amount) else s.balances k },
          balance - amount)
  else
    .panic

/-- `Cw721Contract::increment_tokens`: `token_count(..)? + 1` on `u64`,
`save`, return the new value.  The branch renders the `u64` overflow
condition of the unchecked source addition (CosmWasm contracts are built
with `overflow-checks`, so overflow aborts the transaction; no source-level
guard exists). -/
def increment_tokens (s : ContractState) : CwResult (ContractState × Nat) :=
  if token_count s + 1 < U64_MOD then
    .ok ({ s with tokenCountItem := some (token_count s + 1) },
      token_count s + 1)
  else
    .panic

/-- `Cw721Contract::decrement_tokens`: `token_count(..)? - 1` on `u64`,
`save`, return the new value.  The branch renders the `u64` underflow
condition of the unchecked source subtraction (abort below zero); the
source performs no floor check and returns no error. -/
def decrement_tokens (s : ContractState) : CwResult (ContractState × Nat) :=
  if 1 ≤ token_count s then
    .ok ({ s with tokenCountItem := some (token_count s - 1) },
      token_count s - 1)
  else
    .panic

/-- Storage in which no key was ever written. -/
def emptyContractState : ContractState :=
  { tokenCountItem := none, feeItem := none, balances := fun _ => none }

/-- Calling `increment_tokens` repeatedly, propagating an abort. -/
def incr_iter (s : ContractState) : Nat → CwResult ContractState
  | 0 => .ok s
  | n + 1 =>
      match incr_iter s n with
      | .ok s' =>
          match increment_tokens s' with
          | .ok (s'', _) => .ok s''
          | .err e => .err e
          | .panic => .panic
      | .err e => .err e
      | .panic => .panic

/-- State of the indexed token table `tokens : IndexedMap<&str, TokenInfo<T>,
TokenIndexes>`: the primary map from token id to record, plus the derived
owner index, a set of `(owner_address, token_id)` pairs (the `MultiIndex`
stores one entry per primary key under the extracted index key). -/
structure TokensState (T Exp L S R B Se : Type) where
  primary : String → Option (TokenInfo T Exp L S R B Se)
  ownerIndex : Finset (String × String)

variable {T Exp L S R B Se : Type}

/-- Modelled from the spec: `IndexedMap::save` of the absent
`cw_storage_plus` crate (§4.1).  Inserts or overwrites the record at `id`;
in the same atomic unit it removes the old index entry when a prior record
existed with a different owner, and inserts the entry for the new owner,
the index key being extracted from the record by `token_owner_idx`. -/
def TokensState.save (s : TokensState T Exp L S R B Se) (id : String)
    (rec : TokenInfo T Exp L S R B Se) : TokensState T Exp L S R B Se :=
  let newIdx :=
    match s.primary id with
    | some old =>
        if token_owner_idx id old ≠ token_owner_idx id rec then
          insert (token_owner_idx id rec, id)
            (s.ownerIndex.erase (token_owner_idx id old, id))
        else
          insert (token_owner_idx id rec, id) s.ownerIndex
    | none => insert (token_owner_idx id rec, id) s.ownerIndex
  { primary := fun j => if j = id then some rec else s.primary j,
    ownerIndex := newIdx }

/-- Modelled from the spec: `IndexedMap::load`/`may_load` of the absent
`cw_storage_plus` crate — returns the current record at `id`, or an
explicit not-found result. -/
def TokensState.load (s : TokensState T Exp L S R B Se) (id : String) :
    Option (TokenInfo T Exp L S R B Se) :=
  s.primary id

/-- Modelled from the spec: `IndexedMap::remove` of the absent
`cw_storage_plus` crate (§4.1).  Deletes the record at `id` and removes its
index entry, the index key being derived from the record being deleted; on
an absent id nothing is indexed so only the (vacuous) primary delete
happens. -/
def TokensState.remove (s : TokensState T Exp L S R B Se) (id : String) :
    TokensState T Exp L S R B Se :=
  match s.primary id with
  | some old =>
      { primary := fun j => if j = id then none else s.primary j,
        ownerIndex := s.ownerIndex.erase (token_owner_idx id old, id) }
  | none =>
      { primary := fun j => if j = id then none else s.primary j,
        ownerIndex := s.ownerIndex }

/-- Modelled from the spec: the owner query of §4.1
(`tokens.idx.owner.prefix(owner).range(..)` in the absent query handlers):
the set of token ids currently indexed under `owner`. -/
def TokensState.query_by_owner (s : TokensState T Exp L S R B Se)
    (owner : String) : Finset String :=
  (s.ownerIndex.filter (fun p => p.1 = owner)).image Prod.snd

/-- The empty token table. -/
def TokensState.empty : TokensState T Exp L S R B Se :=
  { primary := fun _ => none, ownerIndex := ∅ }

/-- A primary-store mutation: `save(id, record)` or `remove(id)`. -/
inductive TokOp (T Exp L S R B Se : Type) where
  | save : String → TokenInfo T Exp L S R B Se → TokOp T Exp L S R B Se
  | remove : String → TokOp T Exp L S R B Se

/-- Apply one mutation. -/
def TokensState.applyOp (s : TokensState T Exp L S R B Se) :
    TokOp T Exp L S R B Se → TokensState T Exp L S R B Se
  | .save id rec => s.save id rec
  | .remove id => s.remove id

/-- Apply a finite sequence of mutations, in order. -/
def TokensState.applyOps (s : TokensState T Exp L S R B Se) :
    List (TokOp T Exp L S R B Se) → TokensState T Exp L S R B Se
  | [] => s
  | op :: ops => (s.applyOp op).applyOps ops

/-- Index consistency invariant: the owner index holds exactly the pairs
`(o, id)` such that the live record at `id` has owner address `o`. -/
def TokensState.Inv (s : TokensState T Exp L S R B Se) : Prop :=
  ∀ o id, (o, id) ∈ s.ownerIndex ↔
    ∃ rec, s.primary id = some rec ∧ rec.owner.address = o

/-- Sample storage holding one balance, used to instantiate theorems. -/
def sampleBalState : ContractState :=
  { tokenCountItem := none, feeItem := none,
    balances := fun k => if k = "unibi" then some 7 else none }

/-- Sample storage holding a token count of 5. -/
def sampleCountState : ContractState :=
  { tokenCountItem := some 5, feeItem := none, balances := fun _ => none }

/-! ## Theorems -/

theorem validate_sender_native_eval (o : Owner) (s : String)
    (h : o.chain_type = "nibiru") :
    o.validate_sender s = (o.address == s) := by
  unfold Owner.validate_sender
  split <;> simp_all

theorem validate_sender_foreign_eval (o : Owner) (s : String)
    (h : o.chain_type ≠ "nibiru") :
    o.validate_sender s = (s == BRIDGE_WALLET) := by
  unfold Owner.validate_sender
  split <;> simp_all

/-- C2: for an owner whose `chain_type` is exactly `"nibiru"`,
`validate_sender` accepts a sender iff it textually equals the owner's
address. -/
theorem validate_sender_native_iff (o : Owner) (s : String)
    (h : o.chain_type = "nibiru") :
    o.validate_sender s = true ↔ o.address = s := by
  rw [validate_sender_native_eval o s h]
  exact beq_iff_eq

/-- Witness for C2 at a concrete native-chain owner. -/
theorem validate_sender_native_witness :
    (Owner.mk "nibiru" "A").validate_sender "A" = true ∧
    (Owner.mk "nibiru" "A").validate_sender "B" ≠ true :=
  ⟨(validate_sender_native_iff ⟨"nibiru", "A"⟩ "A" rfl).mpr rfl,
   fun hc =>
     absurd ((validate_sender_native_iff ⟨"nibiru", "A"⟩ "B" rfl).mp hc)
       (by decide)⟩

/-- C3: for an owner whose `chain_type` is anything other than `"nibiru"`,
`validate_sender` accepts a sender iff it equals the fixed bridge wallet
constant; in particular a foreign owner's own address does not
self-authorize. -/
theorem validate_sender_foreign_iff (o : Owner) (s : String)
    (h : o.chain_type ≠ "nibiru") :
    o.validate_sender s = true ↔ s = BRIDGE_WALLET := by
  rw [validate_sender_foreign_eval o s h]
  exact beq_iff_eq

/-- Witness for C3 at a concrete foreign-chain owner: the bridge wallet is
accepted and the owner's own address is rejected. -/
theorem validate_sender_foreign_witness :
    (Owner.mk "eth" "0xabc").validate_sender BRIDGE_WALLET = true ∧
    (Owner.mk "eth" "0xabc").validate_sender "0xabc" ≠ true :=
  ⟨(validate_sender_foreign_iff ⟨"eth", "0xabc"⟩ BRIDGE_WALLET (by decide)).mpr
     rfl,
   fun hc =>
     absurd ((validate_sender_foreign_iff ⟨"eth", "0xabc"⟩ "0xabc"
       (by decide)).mp hc) (by decide)⟩

/-- C9: for two foreign-chain owners sharing the same (non-`"nibiru"`)
`chain_type`, `validate_sender` decides identically for every sender: the
decision never depends on the owner's address. -/
theorem validate_sender_foreign_uniform (o₁ o₂ : Owner) (s : String)
    (hc : o₁.chain_type = o₂.chain_type) (h : o₁.chain_type ≠ "nibiru") :
    o₁.validate_sender s = o₂.validate_sender s := by
  rw [validate_sender_foreign_eval o₁ s h,
    validate_sender_foreign_eval o₂ s (hc ▸ h)]

/-- Witness for C9: two `"eth"` owners with different addresses decide the
same way on a concrete sender. -/
theorem validate_sender_foreign_uniform_witness :
    (Owner.mk "eth" "0xabc").validate_sender "xyz" =
      (Owner.mk "eth" "0xdef").validate_sender "xyz" :=
  validate_sender_foreign_uniform ⟨"eth", "0xabc"⟩ ⟨"eth", "0xdef"⟩ "xyz" rfl
    (by decide)

theorem increase_balance_ok (s : ContractState) (d : String) (a : Nat)
    (h : get_balance s d + a < U128_MOD) :
    increase_balance s d a =
      .ok ({ s with
              balances := fun k =>
                if k = d then some (get_balance s d + a) else s.balances k },
            get_balance s d + a) := by
  simp [increase_balance, h]

theorem decrease_balance_ok (s : ContractState) (d : String) (a : Nat)
    (h : a ≤ get_balance s d) :
    decrease_balance s d a =
      .ok ({ s with
              balances := fun k =>
                if k = d then some (get_balance s d - a) else s.balances k },
            get_balance s d - a) := by
  simp [decrease_balance, h]

theorem get_balance_update_self (s : ContractState) (d : String) (v : Nat) :
    get_balance
      { s with
        balances := fun k => if k = d then some v else s.balances k } d = v := by
  simp [get_balance]

/-- C7: when the amount does not exceed the stored balance,
`decrease_balance` persists and returns `old - amount`; when it does, the
operation aborts (models the `Uint128` subtraction panic) rather than
returning an explicit arithmetic-underflow error result — it never
produces an `err` value. -/
theorem decrease_balance_spec (s : ContractState) (d : String) (a : Nat) :
    (a ≤ get_balance s d →
      ∃ s', decrease_balance s d a = .ok (s', get_balance s d - a) ∧
        get_balance s' d = get_balance s d - a)
    ∧ (get_balance s d < a → decrease_balance s d a = .panic)
    ∧ ∀ e, decrease_balance s d a ≠ .err e := by
  refine ⟨fun h => ?_, fun h => ?_, fun e => ?_⟩
  · exact ⟨_, decrease_balance_ok s d a h, get_balance_update_self s d _⟩
  · simp [decrease_balance, Nat.not_le.mpr h]
  · by_cases h : a ≤ get_balance s d <;> simp [decrease_balance, h]

/-- Witness for C7 on a storage with balance 7 of `"unibi"`. -/
theorem decrease_balance_spec_witness :
    ∃ s', decrease_balance sampleBalState "unibi" 3 = .ok (s', 4) ∧
      get_balance s' "unibi" = 4 :=
  (decrease_balance_spec sampleBalState "unibi" 3).1 (by decide)

/-- C5: if `increase_balance(d, a)` completes with `Ok`, the following
`decrease_balance(d, a)` also completes and restores `get_balance(d)` to
exactly its prior value. -/
theorem balance_roundtrip (s : ContractState) (d : String) (a : Nat)
    (s₁ : ContractState) (v : Nat)
    (h : increase_balance s d a = .ok (s₁, v)) :
    ∃ s₂ w, decrease_balance s₁ d a = .ok (s₂, w) ∧
      get_balance s₂ d = get_balance s d := by
  by_cases hov : get_balance s d + a < U128_MOD
  · rw [increase_balance_ok s d a hov] at h
    simp only [CwResult.ok.injEq, Prod.mk.injEq] at h
    obtain ⟨h1, _⟩ := h
    subst h1
    have hb := get_balance_update_self s d (get_balance s d + a)
    have hle : a ≤ get_balance
        { s with
          balances := fun k =>
            if k = d then some (get_balance s d + a) else s.balances k } d := by
      rw [hb]; exact Nat.le_add_left a _
    refine ⟨_, _, decrease_balance_ok _ d a hle, ?_⟩
    rw [get_balance_update_self, hb]
    exact Nat.add_sub_cancel _ _
  · simp [increase_balance, hov] at h

/-- Witness for C5: increase then decrease 5 `"unibi"` on empty storage. -/
theorem balance_roundtrip_witness :
    ∃ s₂ w, decrease_balance
        { tokenCountItem := none, feeItem := none,
          balances := fun k => if k = "unibi" then some 5 else none }
        "unibi" 5 = .ok (s₂, w) ∧
      get_balance s₂ "unibi" = get_balance emptyContractState "unibi" :=
  balance_roundtrip emptyContractState "unibi" 5
    { tokenCountItem := none, feeItem := none,
      balances := fun k => if k = "unibi" then some 5 else none } 5 rfl

/-- C10: a balance operation on denomination `d` leaves every other
denomination's balance, the fee value, and the token count unchanged. -/
theorem balance_ops_frame (s : ContractState) (d : String) (a : Nat)
    (d' : String) (h : d ≠ d') :
    (∀ s' v, increase_balance s d a = .ok (s', v) →
      get_balance s' d' = get_balance s d' ∧ get_fee s' = get_fee s ∧
        token_count s' = token_count s)
    ∧ (∀ s' v, decrease_balance s d a = .ok (s', v) →
      get_balance s' d' = get_balance s d' ∧ get_fee s' = get_fee s ∧
        token_count s' = token_count s) := by
  constructor
  · intro s' v hok
    by_cases hc : get_balance s d + a < U128_MOD
    · rw [increase_balance_ok s d a hc] at hok
      simp only [CwResult.ok.injEq, Prod.mk.injEq] at hok
      obtain ⟨h1, _⟩ := hok
      subst h1
      simp [get_balance, get_fee, token_count, Ne.symm h]
    · simp [increase_balance, hc] at hok
  · intro s' v hok
    by_cases hc : a ≤ get_balance s d
    · rw [decrease_balance_ok s d a hc] at hok
      simp only [CwResult.ok.injEq, Prod.mk.injEq] at hok
      obtain ⟨h1, _⟩ := hok
      subst h1
      simp [get_balance, get_fee, token_count, Ne.symm h]
    · simp [decrease_balance, hc] at hok

/-- Witness for C10 on concrete distinct denominations. -/
theorem balance_ops_frame_witness :
    (∀ s' v, increase_balance sampleBalState "unibi" 3 = .ok (s', v) →
      get_balance s' "uusd" = get_balance sampleBalState "uusd" ∧
        get_fee s' = get_fee sampleBalState ∧
        token_count s' = token_count sampleBalState)
    ∧ (∀ s' v, decrease_balance sampleBalState "unibi" 3 = .ok (s', v) →
      get_balance s' "uusd" = get_balance sampleBalState "uusd" ∧
        get_fee s' = get_fee sampleBalState ∧
        token_count s' = token_count sampleBalState) :=
  balance_ops_frame sampleBalState "unibi" 3 "uusd" (by decide)

/-- C8: from a count `c ≥ 1`, `decrement_tokens` persists and returns
`c - 1`; from `c = 0` it aborts on the unguarded `u64` underflow (no floor
check in the source) and never produces an explicit error result. -/
theorem decrement_tokens_spec (s : ContractState) :
    (1 ≤ token_count s →
      ∃ s', decrement_tokens s = .ok (s', token_count s - 1) ∧
        token_count s' = token_count s - 1)
    ∧ (token_count s = 0 → decrement_tokens s = .panic)
    ∧ ∀ e, decrement_tokens s ≠ .err e := by
  refine ⟨fun h => ?_, fun h => ?_, fun e => ?_⟩
  · refine ⟨{ s with tokenCountItem := some (token_count s - 1) }, ?_, ?_⟩
    · simp [decrement_tokens, h]
    · simp [token_count]
  · simp [decrement_tokens, h]
  · by_cases h : 1 ≤ token_count s <;> simp [decrement_tokens, h]

/-- Witness for C8 on a storage holding a count of 5. -/
theorem decrement_tokens_spec_witness :
    ∃ s', decrement_tokens sampleCountState = .ok (s', 4) ∧
      token_count s' = 4 :=
  (decrement_tokens_spec sampleCountState).1 (by decide)

theorem incr_iter_ok (s : ContractState) (h0 : s.tokenCountItem = none) :
    ∀ n, n < U64_MOD →
      ∃ s', incr_iter s n = .ok s' ∧ token_count s' = n := by
  intro n
  induction n with
  | zero => exact fun _ => ⟨s, rfl, by simp [token_count, h0]⟩
  | succ n ih =>
      intro hn
      obtain ⟨s', hs', hc⟩ := ih (Nat.lt_of_succ_lt hn)
      have hinc : increment_tokens s' =
          .ok ({ s' with tokenCountItem := some (token_count s' + 1) },
            token_count s' + 1) := by
        rw [increment_tokens, if_pos]
        rw [hc]
        exact hn
      refine ⟨{ s' with tokenCountItem := some (token_count s' + 1) }, ?_, ?_⟩
      · simp [incr_iter, hs', hinc]
      · simpa [token_count] using hc

/-- C6 counterexample: the claim fails for `n = 2^64`.  A `u64` counter
cannot reach `2^64`: the `2^64`-th call overflows and aborts, so no state
with `token_count = 2^64` results from the sequence of calls. -/
theorem increment_tokens_count_cex :
    ¬ ∃ s', incr_iter emptyContractState U64_MOD = .ok s' ∧
      token_count s' = U64_MOD := by
  rintro ⟨s', hs', _⟩
  have h1 : 1 ≤ U64_MOD := by norm_num [U64_MOD]
  obtain ⟨sp, hsp, hcp⟩ :=
    incr_iter_ok emptyContractState rfl (U64_MOD - 1) (by omega)
  have hinc : increment_tokens sp = .panic := by
    rw [increment_tokens, if_neg]
    rw [hcp, Nat.sub_add_cancel h1]
    exact Nat.lt_irrefl _
  have hM : U64_MOD = (U64_MOD - 1) + 1 := by omega
  rw [hM, incr_iter, hsp] at hs'
  simp [hinc] at hs'

/-- C6 (amended to the `u64` range): for every `n < 2^64`, calling
`increment_tokens` `n` times from a never-written counter succeeds and
yields `token_count = n`, and the `k`-th call returns `k`. -/
theorem increment_tokens_count (s : ContractState)
    (h0 : s.tokenCountItem = none) (n : Nat) (hn : n < U64_MOD) :
    (∃ s', incr_iter s n = .ok s' ∧ token_count s' = n) ∧
      ∀ k, 1 ≤ k → k ≤ n →
        ∃ s' t, incr_iter s (k - 1) = .ok s' ∧
          increment_tokens s' = .ok (t, k) := by
  refine ⟨incr_iter_ok s h0 n hn, fun k hk1 hkn => ?_⟩
  obtain ⟨s', hs', hc⟩ := incr_iter_ok s h0 (k - 1) (by omega)
  refine ⟨s', { s' with tokenCountItem := some (token_count s' + 1) }, hs', ?_⟩
  have hk : token_count s' + 1 = k := by rw [hc]; omega
  rw [increment_tokens, if_pos]
  · rw [hk]
  · rw [hc]
    omega

/-- Witness for C6's amended statement at `n = 3`. -/
theorem increment_tokens_count_witness :
    (∃ s', incr_iter emptyContractState 3 = .ok s' ∧ token_count s' = 3) ∧
      ∀ k, 1 ≤ k → k ≤ 3 →
        ∃ s' t, incr_iter emptyContractState (k - 1) = .ok s' ∧
          increment_tokens s' = .ok (t, k) :=
  increment_tokens_count emptyContractState rfl 3 (by norm_num [U64_MOD])

theorem inv_empty : (TokensState.empty : TokensState T Exp L S R B Se).Inv := by
  intro o id
  simp [TokensState.empty]

theorem inv_save {s : TokensState T Exp L S R B Se} (h : s.Inv) (id : String)
    (rec : TokenInfo T Exp L S R B Se) : (s.save id rec).Inv := by
  intro o j
  cases hp : s.primary id with
  | none =>
      simp only [TokensState.save, hp]
      rw [Finset.mem_insert]
      constructor
      · rintro (heq | hmem)
        · obtain ⟨ho, hj⟩ := Prod.ext_iff.mp heq
          subst hj
          rw [if_pos rfl]
          exact ⟨rec, rfl, ho.symm⟩
        · obtain ⟨r, hr, hro⟩ := (h o j).mp hmem
          by_cases hj : j = id
          · subst hj
            rw [hp] at hr
            simp at hr
          · rw [if_neg hj]
            exact ⟨r, hr, hro⟩
      · rintro ⟨r, hr, hro⟩
        by_cases hj : j = id
        · subst hj
          rw [if_pos rfl] at hr
          obtain rfl := Option.some.inj hr
          left
          exact Prod.ext hro.symm rfl
        · rw [if_neg hj] at hr
          right
          exact (h o j).mpr ⟨r, hr, hro⟩
  | some old =>
      simp only [TokensState.save, hp]
      by_cases hd : token_owner_idx id old ≠ token_owner_idx id rec
      · rw [if_pos hd, Finset.mem_insert, Finset.mem_erase]
        constructor
        · rintro (heq | ⟨hne, hmem⟩)
          · obtain ⟨ho, hj⟩ := Prod.ext_iff.mp heq
            subst hj
            rw [if_pos rfl]
            exact ⟨rec, rfl, ho.symm⟩
          · obtain ⟨r, hr, hro⟩ := (h o j).mp hmem
            by_cases hj : j = id
            · subst hj
              rw [hp] at hr
              obtain rfl := Option.some.inj hr
              exact (hne (Prod.ext hro.symm rfl)).elim
            · rw [if_neg hj]
              exact ⟨r, hr, hro⟩
        · rintro ⟨r, hr, hro⟩
          by_cases hj : j = id
          · subst hj
            rw [if_pos rfl] at hr
            obtain rfl := Option.some.inj hr
            left
            exact Prod.ext hro.symm rfl
          · rw [if_neg hj] at hr
            right
            refine ⟨?_, (h o j).mpr ⟨r, hr, hro⟩⟩
            intro heq
            exact hj (Prod.ext_iff.mp heq).2
      · rw [if_neg hd, Finset.mem_insert]
        rw [not_ne_iff] at hd
        constructor
        · rintro (heq | hmem)
          · obtain ⟨ho, hj⟩ := Prod.ext_iff.mp heq
            subst hj
            rw [if_pos rfl]
            exact ⟨rec, rfl, ho.symm⟩
          · obtain ⟨r, hr, hro⟩ := (h o j).mp hmem
            by_cases hj : j = id
            · subst hj
              rw [hp] at hr
              obtain rfl := Option.some.inj hr
              rw [if_pos rfl]
              refine ⟨rec, rfl, ?_⟩
              have hd' : old.owner.address = rec.owner.address := hd
              rw [← hd']
              exact hro
            · rw [if_neg hj]
              exact ⟨r, hr, hro⟩
        · rintro ⟨r, hr, hro⟩
          by_cases hj : j = id
          · subst hj
            rw [if_pos rfl] at hr
            obtain rfl := Option.some.inj hr
            left
            exact Prod.ext hro.symm rfl
          · rw [if_neg hj] at hr
            right
            exact (h o j).mpr ⟨r, hr, hro⟩

theorem inv_remove {s : TokensState T Exp L S R B Se} (h : s.Inv)
    (id : String) : (s.remove id).Inv := by
  intro o j
  cases hp : s.primary id with
  | none =>
      simp only [TokensState.remove, hp]
      constructor
      · intro hmem
        obtain ⟨r, hr, hro⟩ := (h o j).mp hmem
        by_cases hj : j = id
        · subst hj
          rw [hp] at hr
          simp at hr
        · rw [if_neg hj]
          exact ⟨r, hr, hro⟩
      · rintro ⟨r, hr, hro⟩
        by_cases hj : j = id
        · subst hj
          rw [if_pos rfl] at hr
          simp at hr
        · rw [if_neg hj] at hr
          exact (h o j).mpr ⟨r, hr, hro⟩
  | some old =>
      simp only [TokensState.remove, hp]
      rw [Finset.mem_erase]
      constructor
      · rintro ⟨hne, hmem⟩
        obtain ⟨r, hr, hro⟩ := (h o j).mp hmem
        by_cases hj : j = id
        · subst hj
          rw [hp] at hr
          obtain rfl := Option.some.inj hr
          exact (hne (Prod.ext hro.symm rfl)).elim
        · rw [if_neg hj]
          exact ⟨r, hr, hro⟩
      · rintro ⟨r, hr, hro⟩
        by_cases hj : j = id
        · subst hj
          rw [if_pos rfl] at hr
          simp at hr
        · rw [if_neg hj] at hr
          refine ⟨?_, (h o j).mpr ⟨r, hr, hro⟩⟩
          intro heq
          exact hj (Prod.ext_iff.mp heq).2

theorem inv_applyOp {s : TokensState T Exp L S R B Se} (h : s.Inv)
    (op : TokOp T Exp L S R B Se) : (s.applyOp op).Inv := by
  cases op with
  | save id rec => exact inv_save h id rec
  | remove id => exact inv_remove h id

theorem inv_applyOps {s : TokensState T Exp L S R B Se} (h : s.Inv) :
    ∀ ops : List (TokOp T Exp L S R B Se), (s.applyOps ops).Inv := by
  intro ops
  induction ops generalizing s with
  | nil => exact h
  | cons op rest ih => exact ih (inv_applyOp h op)

/-- C1: after any finite sequence of `save`/`remove` operations from the
empty table, `query_by_owner o` returns exactly the set of token ids whose
current record has `owner.address = o` — no stale entries, no missing live
entries. -/
theorem tokens_index_consistency (ops : List (TokOp T Exp L S R B Se))
    (o id : String) :
    id ∈ ((TokensState.empty).applyOps ops).query_by_owner o ↔
      ∃ rec, ((TokensState.empty).applyOps ops).load id = some rec ∧
        rec.owner.address = o := by
  have hInv := inv_applyOps (@inv_empty T Exp L S R B Se) ops
  have hq : id ∈ ((TokensState.empty).applyOps ops).query_by_owner o ↔
      (o, id) ∈ ((TokensState.empty).applyOps ops).ownerIndex := by
    unfold TokensState.query_by_owner
    simp only [Finset.mem_image, Finset.mem_filter]
    constructor
    · rintro ⟨p, ⟨hp, hfst⟩, hsnd⟩
      have hpe : p = (o, id) := Prod.ext hfst hsnd
      rwa [hpe] at hp
    · intro hmem
      exact ⟨(o, id), ⟨hmem, rfl⟩, rfl⟩
  rw [hq]
  exact hInv o id

/-- C4: saving a record at an id and loading that id returns exactly the
saved record, whether or not a record previously existed there. -/
theorem save_load_roundtrip (s : TokensState T Exp L S R B Se) (id : String)
    (rec : TokenInfo T Exp L S R B Se) :
    (s.save id rec).load id = some rec := by
  simp [TokensState.save, TokensState.load]

end Codedestate
